import Mathlib

/-!
Verification model of the encryption-as-a-service core (`src/app.py`).

Bytes are modelled as `Nat` values below 256, byte strings as `List Nat`.
The AES block cipher, CFB mode, base64 transport encoding and the strict
UTF-8 text decoding used by the Flask endpoints are embedded executably,
together with the SQLite `services` table (a list of rows) and the four
endpoint handlers `create_service`, `encrypt`, `decrypt`, `update_key`.
-/

set_option maxRecDepth 100000

namespace EaaS

/-! ## AES block cipher (as provided by `cryptography`'s `algorithms.AES`) -/

/-- The AES S-box (FIPS-197 figure 7). -/
def sbox : List Nat :=
  [0x63, 0x7c, 0x77, 0x7b, 0xf2, 0x6b, 0x6f, 0xc5, 0x30, 0x01, 0x67, 0x2b, 0xfe, 0xd7, 0xab, 0x76,
   0xca, 0x82, 0xc9, 0x7d, 0xfa, 0x59, 0x47, 0xf0, 0xad, 0xd4, 0xa2, 0xaf, 0x9c, 0xa4, 0x72, 0xc0,
   0xb7, 0xfd, 0x93, 0x26, 0x36, 0x3f, 0xf7, 0xcc, 0x34, 0xa5, 0xe5, 0xf1, 0x71, 0xd8, 0x31, 0x15,
   0x04, 0xc7, 0x23, 0xc3, 0x18, 0x96, 0x05, 0x9a, 0x07, 0x12, 0x80, 0xe2, 0xeb, 0x27, 0xb2, 0x75,
   0x09, 0x83, 0x2c, 0x1a, 0x1b, 0x6e, 0x5a, 0xa0, 0x52, 0x3b, 0xd6, 0xb3, 0x29, 0xe3, 0x2f, 0x84,
   0x53, 0xd1, 0x00, 0xed, 0x20, 0xfc, 0xb1, 0x5b, 0x6a, 0xcb, 0xbe, 0x39, 0x4a, 0x4c, 0x58, 0xcf,
   0xd0, 0xef, 0xaa, 0xfb, 0x43, 0x4d, 0x33, 0x85, 0x45, 0xf9, 0x02, 0x7f, 0x50, 0x3c, 0x9f, 0xa8,
   0x51, 0xa3, 0x40, 0x8f, 0x92, 0x9d, 0x38, 0xf5, 0xbc, 0xb6, 0xda, 0x21, 0x10, 0xff, 0xf3, 0xd2,
   0xcd, 0x0c, 0x13, 0xec, 0x5f, 0x97, 0x44, 0x17, 0xc4, 0xa7, 0x7e, 0x3d, 0x64, 0x5d, 0x19, 0x73,
   0x60, 0x81, 0x4f, 0xdc, 0x22, 0x2a, 0x90, 0x88, 0x46, 0xee, 0xb8, 0x14, 0xde, 0x5e, 0x0b, 0xdb,
   0xe0, 0x32, 0x3a, 0x0a, 0x49, 0x06, 0x24, 0x5c, 0xc2, 0xd3, 0xac, 0x62, 0x91, 0x95, 0xe4, 0x79,
   0xe7, 0xc8, 0x37, 0x6d, 0x8d, 0xd5, 0x4e, 0xa9, 0x6c, 0x56, 0xf4, 0xea, 0x65, 0x7a, 0xae, 0x08,
   0xba, 0x78, 0x25, 0x2e, 0x1c, 0xa6, 0xb4, 0xc6, 0xe8, 0xdd, 0x74, 0x1f, 0x4b, 0xbd, 0x8b, 0x8a,
   0x70, 0x3e, 0xb5, 0x66, 0x48, 0x03, 0xf6, 0x0e, 0x61, 0x35, 0x57, 0xb9, 0x86, 0xc1, 0x1d, 0x9e,
   0xe1, 0xf8, 0x98, 0x11, 0x69, 0xd9, 0x8e, 0x94, 0x9b, 0x1e, 0x87, 0xe9, 0xce, 0x55, 0x28, 0xdf,
   0x8c, 0xa1, 0x89, 0x0d, 0xbf, 0xe6, 0x42, 0x68, 0x41, 0x99, 0x2d, 0x0f, 0xb0, 0x54, 0xbb, 0x16]

/-- S-box substitution of one byte. -/
def sb (b : Nat) : Nat := sbox.getD b 0

/-- Multiplication by x in GF(2^8) modulo the AES polynomial, reduced to a byte. -/
def xtime (b : Nat) : Nat :=
  (Nat.xor (2 * b) (if 0x80 ≤ b then 0x1b else 0)) % 256

/-- Multiplication by 3 in GF(2^8). -/
def xtimes3 (b : Nat) : Nat := Nat.xor (xtime b) b

/-- SubBytes round step. -/
def subBytes (s : List Nat) : List Nat := s.map sb

/-- ShiftRows round step on a flat 16-byte state in column-major byte order. -/
def shiftRows (s : List Nat) : List Nat :=
  (List.range 16).map fun i => s.getD (4 * ((i / 4 + i % 4) % 4) + i % 4) 0

/-- MixColumns applied to a single 4-byte column. -/
def mixOneColumn (a : List Nat) : List Nat :=
  let a0 := a.getD 0 0
  let a1 := a.getD 1 0
  let a2 := a.getD 2 0
  let a3 := a.getD 3 0
  [Nat.xor (Nat.xor (xtime a0) (xtimes3 a1)) (Nat.xor a2 a3),
   Nat.xor (Nat.xor a0 (xtime a1)) (Nat.xor (xtimes3 a2) a3),
   Nat.xor (Nat.xor a0 a1) (Nat.xor (xtime a2) (xtimes3 a3)),
   Nat.xor (Nat.xor (xtimes3 a0) a1) (Nat.xor a2 (xtime a3))]

/-- MixColumns round step. -/
def mixColumns (s : List Nat) : List Nat :=
  mixOneColumn (s.take 4) ++ mixOneColumn ((s.drop 4).take 4) ++
    mixOneColumn ((s.drop 8).take 4) ++ mixOneColumn (s.drop 12)

/-- AddRoundKey round step; each output byte is reduced to the byte range. -/
def addRoundKey (s k : List Nat) : List Nat :=
  (List.range 16).map fun i => (Nat.xor (s.getD i 0) (k.getD i 0)) % 256

/-- RotWord of the key schedule. -/
def rotWord (w : List Nat) : List Nat := w.drop 1 ++ w.take 1

/-- SubWord of the key schedule. -/
def subWord (w : List Nat) : List Nat := w.map sb

/-- Round constants of the key schedule. -/
def rcon : List Nat := [0x01, 0x02, 0x04, 0x08, 0x10, 0x20, 0x40, 0x80, 0x1b, 0x36]

/-- Bytewise XOR of two (equal-length) byte strings. -/
def xorWord (a b : List Nat) : List Nat := List.zipWith Nat.xor a b

/-- One step of the Rijndael key expansion: append the next 4-byte word. -/
def nextWord (nk : Nat) (ws : List (List Nat)) : List (List Nat) :=
  let i := ws.length
  let prev := ws.getD (i - 1) []
  let temp :=
    if i % nk = 0 then xorWord (subWord (rotWord prev)) [rcon.getD (i / nk - 1) 0, 0, 0, 0]
    else if 6 < nk ∧ i % nk = 4 then subWord prev
    else prev
  ws ++ [xorWord (ws.getD (i - nk) []) temp]

/-- Full key expansion producing `4 * (nr + 1)` words. -/
def keyWords (key : List Nat) : List (List Nat) :=
  let nk := key.length / 4
  let nr := nk + 6
  let initial := (List.range nk).map fun i => (key.drop (4 * i)).take 4
  (List.range (4 * (nr + 1) - nk)).foldl (fun ws _ => nextWord nk ws) initial

/-- The 16-byte round key for round `r`. -/
def roundKey (ws : List (List Nat)) (r : Nat) : List Nat :=
  ((ws.drop (4 * r)).take 4).flatten

/-- One middle round of the AES cipher. -/
def aesRound (ws : List (List Nat)) (r : Nat) (s : List Nat) : List Nat :=
  addRoundKey (mixColumns (shiftRows (subBytes s))) (roundKey ws r)

/-- AES block encryption (FIPS-197 cipher); the key length selects the variant. -/
def aesEncryptBlock (key block : List Nat) : List Nat :=
  let nk := key.length / 4
  let nr := nk + 6
  let ws := keyWords key
  let s0 := addRoundKey block (roundKey ws 0)
  let s1 := (List.range (nr - 1)).foldl (fun s r => aesRound ws (r + 1) s) s0
  addRoundKey (shiftRows (subBytes s1)) (roundKey ws nr)

/-! ## CFB mode (`modes.CFB`, full-block cipher feedback) -/

/-- Fuelled CFB encryption worker; the fuel only serves structural
termination and is irrelevant once it at least reaches the input length. -/
def cfbEncryptAux : Nat → List Nat → List Nat → List Nat → List Nat
  | _, _, _, [] => []
  | 0, _, _, _ :: _ => []
  | fuel + 1, key, iv, p :: ps =>
      let c := List.zipWith Nat.xor ((p :: ps).take 16) (aesEncryptBlock key iv)
      c ++ cfbEncryptAux fuel key c ((p :: ps).drop 16)

/-- CFB encryption: each 16-byte segment of plaintext is XORed with the
block-encrypted previous ciphertext segment (initially the IV); the final
segment may be shorter (stream mode, no padding). -/
def cfbEncrypt (key iv pt : List Nat) : List Nat :=
  cfbEncryptAux pt.length key iv pt

/-- Fuelled CFB decryption worker. -/
def cfbDecryptAux : Nat → List Nat → List Nat → List Nat → List Nat
  | _, _, _, [] => []
  | 0, _, _, _ :: _ => []
  | fuel + 1, key, iv, c :: cs =>
      let seg := (c :: cs).take 16
      let p := List.zipWith Nat.xor seg (aesEncryptBlock key iv)
      p ++ cfbDecryptAux fuel key seg ((c :: cs).drop 16)

/-- CFB decryption: the inverse transform; the feedback register is fed the
received ciphertext segments. -/
def cfbDecrypt (key iv ct : List Nat) : List Nat :=
  cfbDecryptAux ct.length key iv ct

/-! ## Base64 transport encoding (`base64.b64encode` / `base64.b64decode`) -/

/-- The base64 alphabet. -/
def b64Alphabet : List Char :=
  "ABCDEFGHIJKLMNOPQRSTUVWXYZabcdefghijklmnopqrstuvwxyz0123456789+/".data

/-- The base64 digit for a 6-bit value. -/
def b64Char (v : Nat) : Char := b64Alphabet.getD v 'A'

/-- Index of a character in a character list. -/
def charIdx (c : Char) : List Char → Option Nat
  | [] => none
  | a :: r => if a = c then some 0 else (charIdx c r).map (· + 1)

/-- The 6-bit value of a base64 digit. -/
def b64Val (c : Char) : Option Nat := charIdx c b64Alphabet

/-- Base64 encoding of a byte string, processed in 3-byte groups. -/
def b64EncodeChunks : List Nat → List Char
  | [] => []
  | [a] => [b64Char (a / 4), b64Char (a % 4 * 16), '=', '=']
  | [a, b] => [b64Char (a / 4), b64Char (a % 4 * 16 + b / 16), b64Char (b % 16 * 4), '=']
  | a :: b :: c :: rest =>
      b64Char (a / 4) :: b64Char (a % 4 * 16 + b / 16) ::
        b64Char (b % 16 * 4 + c / 64) :: b64Char (c % 64) :: b64EncodeChunks rest

/-- Base64 decoding of well-formed input, processed in 4-character groups;
`none` models the `binascii.Error` raised on malformed input. -/
def b64DecodeChunks : List Char → Option (List Nat)
  | [] => some []
  | c1 :: c2 :: c3 :: c4 :: rest =>
    match b64Val c1, b64Val c2 with
    | some i1, some i2 =>
      if c3 = '=' then
        if c4 = '=' ∧ rest = [] then some [i1 * 4 + i2 / 16] else none
      else
        match b64Val c3 with
        | some i3 =>
          if c4 = '=' then
            if rest = [] then some [i1 * 4 + i2 / 16, i2 % 16 * 16 + i3 / 4] else none
          else
            match b64Val c4 with
            | some i4 =>
              (b64DecodeChunks rest).map
                (fun bs =>
                  (i1 * 4 + i2 / 16) :: (i2 % 16 * 16 + i3 / 4) :: (i3 % 4 * 64 + i4) :: bs)
            | none => none
        | none => none
    | _, _ => none
  | _ => none

/-- `base64.b64encode(..).decode()` as used throughout `app.py`. -/
def b64encode (l : List Nat) : String := String.mk (b64EncodeChunks l)

/-- `base64.b64decode(..)` as used throughout `app.py`. -/
def b64decode (s : String) : Option (List Nat) := b64DecodeChunks s.data

/-! ## Strict UTF-8 validity (`bytes.decode()`) -/

/-- One-byte-at-a-time UTF-8 acceptor. `need` counts the continuation bytes
still expected, and `lo`/`hi` bound the next byte when `need > 0` (the first
continuation byte's range depends on the lead byte, which excludes overlong
encodings, surrogates, and code points above U+10FFFF). -/
def utf8Scan (need lo hi : Nat) : List Nat → Bool
  | [] => need = 0
  | b :: rest =>
    if need = 0 then
      if b ≤ 0x7F then utf8Scan 0 0 0 rest
      else if 0xC2 ≤ b && b ≤ 0xDF then utf8Scan 1 0x80 0xBF rest
      else if b = 0xE0 then utf8Scan 2 0xA0 0xBF rest
      else if 0xE1 ≤ b && b ≤ 0xEC then utf8Scan 2 0x80 0xBF rest
      else if b = 0xED then utf8Scan 2 0x80 0x9F rest
      else if 0xEE ≤ b && b ≤ 0xEF then utf8Scan 2 0x80 0xBF rest
      else if b = 0xF0 then utf8Scan 3 0x90 0xBF rest
      else if 0xF1 ≤ b && b ≤ 0xF3 then utf8Scan 3 0x80 0xBF rest
      else if b = 0xF4 then utf8Scan 3 0x80 0x8F rest
      else false
    else
      (lo ≤ b && b ≤ hi) && utf8Scan (need - 1) 0x80 0xBF rest

/-- Whether a byte string is valid (strict) UTF-8, as checked by Python's
`bytes.decode()`; a failure there raises `UnicodeDecodeError`. -/
def isValidUtf8 (l : List Nat) : Bool := utf8Scan 0 0 0 l

/-! ## Data model: the `services` table and the endpoint outcomes -/

/-- One row of the SQLite `services` table. `aes_key` and `fixed_iv` are
stored base64-encoded (text columns), exactly as in `app.py`. -/
structure ServiceRecord where
  service_name : String
  aes_key : String
  key_version : Nat
  use_fixed_iv : Bool
  fixed_iv : Option String
deriving DecidableEq

/-- The database, in row insertion order. -/
abbrev Store := List ServiceRecord

/-- The failure outcomes of the endpoints. Each constructor corresponds to one
error response (or uncaught Python exception) in `app.py`, except
`malformedPayload`, which is the typed error of the specification's error
taxonomy and is produced by no code path. -/
inductive ApiError where
  /-- A 400 response for a missing required field. -/
  | requiredField (what : String)
  /-- The 400 response "Service already exists" of `create_service`. -/
  | alreadyExists
  /-- The 404 response of `encrypt`/`decrypt` for a missing (name, version). -/
  | notFoundVersion (v : Nat)
  /-- The 404 response "Service not found" of `update_key`. -/
  | notFoundService
  /-- The 500 response "Fixed IV is missing" of `encrypt`/`decrypt`. -/
  | missingFixedIV
  /-- The typed error of the specification's taxonomy; never produced here. -/
  | malformedPayload
  /-- Uncaught `ValueError` from `algorithms.AES` on a bad key length. -/
  | invalidKeySize
  /-- Uncaught `ValueError` from `modes.CFB` on a bad IV length. -/
  | invalidIVSize
  /-- Uncaught `binascii.Error` from `b64decode` on malformed base64. -/
  | binasciiError
  /-- Uncaught `UnicodeDecodeError` from `bytes.decode()`. -/
  | unicodeDecodeError
deriving DecidableEq

deriving instance DecidableEq for Except

/-- The `SELECT ... WHERE service_name = ? AND key_version = ?` + `fetchone()`
lookup shared by `encrypt` and `decrypt`. -/
def lookupService (st : Store) (name : String) (version : Nat) : Option ServiceRecord :=
  st.find? fun r => r.service_name == name && r.key_version == version

/-- Whether any row exists for a service name (the `fetchone()` checks of
`create_service` and `update_key`). -/
def serviceExists (st : Store) (name : String) : Bool :=
  (st.find? fun r => r.service_name == name).isSome

/-- The `fixed_iv = b64decode(row[2]) if row[2] else None` step shared by
`encrypt` and `decrypt` (an empty string is falsy in Python). -/
def decodeFixedIV (stored : Option String) : Except ApiError (Option (List Nat)) :=
  match stored with
  | none => .ok none
  | some s =>
    if s = "" then .ok none
    else
      match b64decode s with
      | none => .error .binasciiError
      | some b => .ok (some b)

/-- The key- and IV-length validation performed when
`Cipher(algorithms.AES(aes_key), modes.CFB(iv), ...)` is constructed. -/
def cipherSizeCheck (aes_key iv : List Nat) : Except ApiError Unit :=
  if aes_key.length = 16 ∨ aes_key.length = 24 ∨ aes_key.length = 32 then
    if iv.length = 16 then .ok () else .error .invalidIVSize
  else .error .invalidKeySize

/-! ## Endpoint handlers -/

/-- The `create_service` endpoint. `freshKey` and `freshIV` stand for the
`os.urandom` draws; the handler returns the JSON fields (key, optional IV,
both base64) together with the updated store. -/
def create_service (st : Store) (service_name : String) (use_fixed_iv : Bool)
    (freshKey freshIV : List Nat) :
    Except ApiError (String × Option String) × Store :=
  if service_name = "" then (.error (.requiredField "Service name"), st)
  else if serviceExists st service_name then (.error .alreadyExists, st)
  else
    let fixed_iv := if use_fixed_iv then some (b64encode freshIV) else none
    let rec0 : ServiceRecord :=
      ⟨service_name, b64encode freshKey, 1, use_fixed_iv, fixed_iv⟩
    (.ok (b64encode freshKey, fixed_iv), st ++ [rec0])

/-- The `encrypt` endpoint. `plaintext` is the UTF-8 byte string of the JSON
`plaintext` field; `versionArg` is the optional `key_version` field, which
the code defaults to `1`; `freshIV` stands for the `os.urandom(16)` draw used
when the record's policy is not fixed-IV. Returns the wire payload. -/
def encrypt (st : Store) (service_name : String) (plaintext : List Nat)
    (versionArg : Option Nat) (freshIV : List Nat) : Except ApiError String := do
  let key_version := versionArg.getD 1
  if plaintext = [] then throw (.requiredField "Plaintext")
  let some row := lookupService st service_name key_version
    | throw (.notFoundVersion key_version)
  let some aes_key := b64decode row.aes_key | throw .binasciiError
  let fixed_iv ← decodeFixedIV row.fixed_iv
  let iv ← if row.use_fixed_iv then
      match fixed_iv with
      | none => throw ApiError.missingFixedIV
      | some fiv => pure fiv
    else pure freshIV
  let _ ← cipherSizeCheck aes_key iv
  let ciphertext := cfbEncrypt aes_key iv plaintext
  if row.use_fixed_iv then
    pure (b64encode ciphertext)
  else
    pure (b64encode (iv ++ ciphertext))

/-- The `decrypt` endpoint. `payload` is the JSON `ciphertext` field;
`versionArg` is the optional `key_version` field, defaulted to `1`. Returns
the recovered plaintext as its UTF-8 byte string. -/
def decrypt (st : Store) (service_name : String) (payload : String)
    (versionArg : Option Nat) : Except ApiError (List Nat) := do
  let key_version := versionArg.getD 1
  if payload = "" then throw (.requiredField "Ciphertext")
  let some row := lookupService st service_name key_version
    | throw (.notFoundVersion key_version)
  let some aes_key := b64decode row.aes_key | throw .binasciiError
  let fixed_iv ← decodeFixedIV row.fixed_iv
  let ivct ← if row.use_fixed_iv then
      match fixed_iv with
      | none => throw ApiError.missingFixedIV
      | some fiv => do
          let some ct := b64decode payload | throw ApiError.binasciiError
          pure (fiv, ct)
    else do
      let some combined := b64decode payload | throw ApiError.binasciiError
      pure (combined.take 16, combined.drop 16)
  let _ ← cipherSizeCheck aes_key ivct.1
  let plaintext := cfbDecrypt aes_key ivct.1 ivct.2
  if isValidUtf8 plaintext then pure plaintext else throw .unicodeDecodeError

/-- The maximum stored key version for a service, with the code's
`fetchone()[0] or 0` fallback. -/
def maxVersionOf (st : Store) (name : String) : Nat :=
  ((st.filter fun r => r.service_name == name).map (·.key_version)).foldl max 0

/-- The `update_key` (rotation) endpoint. Returns the new version and JSON
fields together with the updated store. -/
def update_key (st : Store) (service_name : String) (use_fixed_iv : Bool)
    (freshKey freshIV : List Nat) :
    Except ApiError (Nat × String × Option String) × Store :=
  let fixed_iv := if use_fixed_iv then some (b64encode freshIV) else none
  if serviceExists st service_name then
    let new_version := maxVersionOf st service_name + 1
    let rec0 : ServiceRecord :=
      ⟨service_name, b64encode freshKey, new_version, use_fixed_iv, fixed_iv⟩
    (.ok (new_version, b64encode freshKey, fixed_iv), st ++ [rec0])
  else (.error .notFoundService, st)

/-- The key versions stored for a service, in insertion order. -/
def versionsOf (st : Store) (name : String) : List Nat :=
  (st.filter fun r => r.service_name == name).map (·.key_version)

/-- The specification's notion of a service's latest version ("the record
with the maximum `key_version` value"), for comparison with the code's
default-version behaviour. -/
def specLatestVersion (st : Store) (name : String) : Nat := maxVersionOf st name

/-- The per-version IV-policy hypothesis used throughout: either the record
is a `Random`-policy row as `create_service`/`update_key` write it (flag
false, no stored IV), or a `Fixed`-policy row whose stored IV decodes to 16
bytes. `fiv` names the decoded fixed IV (unused in the `Random` case). -/
def PolicyHyp (r : ServiceRecord) (fiv : List Nat) : Prop :=
  (r.use_fixed_iv = false ∧ r.fixed_iv = none) ∨
  (r.use_fixed_iv = true ∧
    ∃ s, r.fixed_iv = some s ∧ b64decode s = some fiv ∧ fiv.length = 16)

/-- The storage invariant of claim C9: the fixed IV is stored (as base64 of
16 bytes) exactly when the fixed-IV flag is set. -/
def IVInvariant (r : ServiceRecord) : Prop :=
  (r.use_fixed_iv = true →
    ∃ s fiv, r.fixed_iv = some s ∧ b64decode s = some fiv ∧ fiv.length = 16) ∧
  (r.use_fixed_iv = false → r.fixed_iv = none)

/-- The tail of the `decrypt` handler after the wire payload has been
base64-decoded to `d`: IV resolution per policy, cipher construction checks,
CFB transform, and the final text decoding. -/
def decryptDecoded (use_fixed : Bool) (fiv key d : List Nat) :
    Except ApiError (List Nat) := do
  let iv := if use_fixed then fiv else d.take 16
  let ct := if use_fixed then d else d.drop 16
  let _ ← cipherSizeCheck key iv
  let plaintext := cfbDecrypt key iv ct
  if isValidUtf8 plaintext then pure plaintext else throw .unicodeDecodeError

/-! ## Concrete fixtures for witnesses and counterexamples -/

/-- A concrete 32-byte AES key. -/
def key1 : List Nat := List.range 32

/-- A second, different concrete 32-byte AES key. -/
def key2 : List Nat := (List.range 32).map (fun i => 255 - i)

/-- A concrete 16-byte IV. -/
def iv0 : List Nat := List.replicate 16 7

/-- A store holding one `Random`-policy version of service `svc`. -/
def st1 : Store := [⟨"svc", b64encode key1, 1, false, none⟩]

/-- A store holding two `Random`-policy versions of service `svc` with
different keys. -/
def st2 : Store :=
  [⟨"svc", b64encode key1, 1, false, none⟩,
   ⟨"svc", b64encode key2, 2, false, none⟩]

/-- A store holding one `Fixed`-policy version of service `svc`. -/
def stF : Store := [⟨"svc", b64encode key1, 1, true, some (b64encode iv0)⟩]

/-- The UTF-8 bytes of the plaintext "hello". -/
def hello : List Nat := [104, 101, 108, 108, 111]

/-! ## Theorems -/

/-- Sanity check of the block cipher model: the AES-256 test vector of
FIPS-197 appendix C.3. -/
theorem aes256_fips197_vector :
    aesEncryptBlock
      [0x00, 0x01, 0x02, 0x03, 0x04, 0x05, 0x06, 0x07,
       0x08, 0x09, 0x0a, 0x0b, 0x0c, 0x0d, 0x0e, 0x0f,
       0x10, 0x11, 0x12, 0x13, 0x14, 0x15, 0x16, 0x17,
       0x18, 0x19, 0x1a, 0x1b, 0x1c, 0x1d, 0x1e, 0x1f]
      [0x00, 0x11, 0x22, 0x33, 0x44, 0x55, 0x66, 0x77,
       0x88, 0x99, 0xaa, 0xbb, 0xcc, 0xdd, 0xee, 0xff] =
      [0x8e, 0xa2, 0xb7, 0xca, 0x51, 0x67, 0x45, 0xbf,
       0xea, 0xfc, 0x49, 0x90, 0x4b, 0x49, 0x60, 0x89] := by decide


/-! ## Helper lemmas about the cipher layer -/

/-- An AES block encryption always yields 16 bytes. -/
theorem aesEncryptBlock_length (key block : List Nat) :
    (aesEncryptBlock key block).length = 16 := by
  simp [aesEncryptBlock, addRoundKey]

/-- Every byte of an AES block encryption is below 256. -/
theorem aesEncryptBlock_lt (key block : List Nat) :
    ∀ x ∈ aesEncryptBlock key block, x < 256 := by
  intro x hx
  simp only [aesEncryptBlock, addRoundKey, List.mem_map, List.mem_range] at hx
  obtain ⟨i, -, rfl⟩ := hx
  exact Nat.mod_lt _ (by omega)

/-- XORing with the same byte string twice is the identity (on the shorter
operand). -/
theorem zipWith_xor_cancel (l₁ l₂ : List Nat) (h : l₁.length ≤ l₂.length) :
    List.zipWith Nat.xor (List.zipWith Nat.xor l₁ l₂) l₂ = l₁ := by
  induction l₁ generalizing l₂ with
  | nil => simp
  | cons a t ih =>
    cases l₂ with
    | nil => simp at h
    | cons b t₂ =>
      simp only [List.zipWith_cons_cons, List.cons.injEq]
      exact ⟨Nat.xor_cancel_right b a, ih t₂ (by simpa using h)⟩

/-- A byte string XORed against a 16-byte keystream keeps its length when it
is at most 16 bytes long. -/
theorem zipWith_xor_length (l₁ l₂ : List Nat) :
    (List.zipWith Nat.xor l₁ l₂).length = min l₁.length l₂.length := by
  simp

/-- The fuel of the CFB encryption worker is irrelevant once sufficient. -/
theorem cfbEncryptAux_fuel : ∀ (f₁ f₂ : Nat) (key iv pt : List Nat),
    pt.length ≤ f₁ → pt.length ≤ f₂ →
    cfbEncryptAux f₁ key iv pt = cfbEncryptAux f₂ key iv pt := by
  intro f₁
  induction f₁ with
  | zero =>
    intro f₂ key iv pt h₁ h₂
    have hnil : pt = [] := List.eq_nil_of_length_eq_zero (by omega)
    subst hnil
    cases f₂ <;> rfl
  | succ f ih =>
    intro f₂ key iv pt h₁ h₂
    cases pt with
    | nil => cases f₂ <;> rfl
    | cons p ps =>
      cases f₂ with
      | zero => simp at h₂
      | succ f₂ =>
        simp only [cfbEncryptAux]
        congr 1
        apply ih
        · simp only [List.length_drop, List.length_cons]
          simp only [List.length_cons] at h₁
          omega
        · simp only [List.length_drop, List.length_cons]
          simp only [List.length_cons] at h₂
          omega

/-- The fuel of the CFB decryption worker is irrelevant once sufficient. -/
theorem cfbDecryptAux_fuel : ∀ (f₁ f₂ : Nat) (key iv ct : List Nat),
    ct.length ≤ f₁ → ct.length ≤ f₂ →
    cfbDecryptAux f₁ key iv ct = cfbDecryptAux f₂ key iv ct := by
  intro f₁
  induction f₁ with
  | zero =>
    intro f₂ key iv ct h₁ h₂
    have hnil : ct = [] := List.eq_nil_of_length_eq_zero (by omega)
    subst hnil
    cases f₂ <;> rfl
  | succ f ih =>
    intro f₂ key iv ct h₁ h₂
    cases ct with
    | nil => cases f₂ <;> rfl
    | cons c cs =>
      cases f₂ with
      | zero => simp at h₂
      | succ f₂ =>
        simp only [cfbDecryptAux]
        congr 1
        apply ih
        · simp only [List.length_drop, List.length_cons]
          simp only [List.length_cons] at h₁
          omega
        · simp only [List.length_drop, List.length_cons]
          simp only [List.length_cons] at h₂
          omega

/-- CFB encryption of the empty string. -/
theorem cfbEncrypt_nil (key iv : List Nat) : cfbEncrypt key iv [] = [] := rfl

/-- CFB decryption of the empty string. -/
theorem cfbDecrypt_nil (key iv : List Nat) : cfbDecrypt key iv [] = [] := rfl

/-- CFB encryption unfolded on a nonempty string. -/
theorem cfbEncrypt_cons (key iv pt : List Nat) (h1 : pt ≠ []) :
    cfbEncrypt key iv pt =
      List.zipWith Nat.xor (pt.take 16) (aesEncryptBlock key iv) ++
        cfbEncrypt key (List.zipWith Nat.xor (pt.take 16) (aesEncryptBlock key iv))
          (pt.drop 16) := by
  cases pt with
  | nil => exact absurd rfl h1
  | cons p ps =>
    show cfbEncryptAux (p :: ps).length key iv (p :: ps) = _
    rw [List.length_cons]
    simp only [cfbEncryptAux]
    congr 1
    apply cfbEncryptAux_fuel
    · simp only [List.length_drop, List.length_cons]; omega
    · exact Nat.le_refl _

/-- CFB decryption unfolded on a nonempty string. -/
theorem cfbDecrypt_cons (key iv ct : List Nat) (h1 : ct ≠ []) :
    cfbDecrypt key iv ct =
      List.zipWith Nat.xor (ct.take 16) (aesEncryptBlock key iv) ++
        cfbDecrypt key (ct.take 16) (ct.drop 16) := by
  cases ct with
  | nil => exact absurd rfl h1
  | cons c cs =>
    show cfbDecryptAux (c :: cs).length key iv (c :: cs) = _
    rw [List.length_cons]
    simp only [cfbDecryptAux]
    congr 1
    apply cfbDecryptAux_fuel
    · simp only [List.length_drop, List.length_cons]; omega
    · exact Nat.le_refl _

/-- CFB encryption of a string of at most one segment. -/
theorem cfbEncrypt_short (key iv pt : List Nat) (h2 : pt.length ≤ 16) :
    cfbEncrypt key iv pt = List.zipWith Nat.xor pt (aesEncryptBlock key iv) := by
  by_cases h1 : pt = []
  · simp [h1, cfbEncrypt_nil]
  · rw [cfbEncrypt_cons key iv pt h1, List.take_of_length_le h2,
      List.drop_eq_nil_of_le h2, cfbEncrypt_nil, List.append_nil]

/-- CFB decryption inverts CFB encryption, for any key and IV. -/
theorem cfb_roundtrip (key iv pt : List Nat) :
    cfbDecrypt key iv (cfbEncrypt key iv pt) = pt := by
  by_cases h : pt = []
  · simp [h, cfbEncrypt_nil, cfbDecrypt_nil]
  · have hkslen : (aesEncryptBlock key iv).length = 16 := aesEncryptBlock_length key iv
    have hptpos : 0 < pt.length := List.length_pos.mpr h
    by_cases hlen : pt.length ≤ 16
    · rw [cfbEncrypt_short key iv pt hlen]
      have hclen : (List.zipWith Nat.xor pt (aesEncryptBlock key iv)).length = pt.length := by
        rw [zipWith_xor_length, hkslen]; omega
      have hcne : List.zipWith Nat.xor pt (aesEncryptBlock key iv) ≠ [] := by
        apply List.ne_nil_of_length_pos; omega
      rw [cfbDecrypt_cons _ _ _ hcne,
        List.take_of_length_le (by omega),
        List.drop_eq_nil_of_le (by omega), cfbDecrypt_nil, List.append_nil,
        zipWith_xor_cancel _ _ (by omega)]
    · push_neg at hlen
      rw [cfbEncrypt_cons key iv pt h]
      have hclen : (List.zipWith Nat.xor (pt.take 16) (aesEncryptBlock key iv)).length
          = 16 := by
        rw [zipWith_xor_length, hkslen, List.length_take]; omega
      have hcne : List.zipWith Nat.xor (pt.take 16) (aesEncryptBlock key iv) ≠ [] := by
        apply List.ne_nil_of_length_pos; omega
      have hne : List.zipWith Nat.xor (pt.take 16) (aesEncryptBlock key iv) ++
          cfbEncrypt key (List.zipWith Nat.xor (pt.take 16) (aesEncryptBlock key iv))
            (pt.drop 16) ≠ [] := by
        intro hcontra
        exact hcne (List.append_eq_nil.mp hcontra).1
      rw [cfbDecrypt_cons _ _ _ hne, List.take_left' hclen, List.drop_left' hclen,
        zipWith_xor_cancel _ _ (by rw [hkslen, List.length_take]; omega),
        cfb_roundtrip key _ (pt.drop 16), List.take_append_drop]
termination_by pt.length
decreasing_by
  simp only [List.length_drop]
  omega

/-- CFB encryption preserves length (stream mode, no padding). -/
theorem cfbEncrypt_length (key iv pt : List Nat) :
    (cfbEncrypt key iv pt).length = pt.length := by
  by_cases h : pt = []
  · simp [h, cfbEncrypt_nil]
  · rw [cfbEncrypt_cons key iv pt h, List.length_append, zipWith_xor_length,
      aesEncryptBlock_length, List.length_take,
      cfbEncrypt_length key _ (pt.drop 16), List.length_drop]
    omega
termination_by pt.length
decreasing_by
  simp only [List.length_drop]
  have := List.length_pos.mpr h
  omega

/-- The XOR of two byte strings consists of bytes. -/
theorem zipWith_xor_lt (l₁ l₂ : List Nat) (h₁ : ∀ a ∈ l₁, a < 256)
    (h₂ : ∀ a ∈ l₂, a < 256) : ∀ x ∈ List.zipWith Nat.xor l₁ l₂, x < 256 := by
  induction l₁ generalizing l₂ with
  | nil => simp
  | cons a t ih =>
    cases l₂ with
    | nil => simp
    | cons b t₂ =>
      intro x hx
      simp only [List.zipWith_cons_cons, List.mem_cons] at hx
      rcases hx with rfl | hx
      · have ha : a < 2 ^ 8 := h₁ a (by simp)
        have hb : b < 2 ^ 8 := h₂ b (by simp)
        exact Nat.xor_lt_two_pow ha hb
      · exact ih t₂ (fun y hy => h₁ y (List.mem_cons_of_mem a hy))
          (fun y hy => h₂ y (List.mem_cons_of_mem b hy)) x hx

/-- CFB ciphertext consists of bytes when the plaintext does. -/
theorem cfbEncrypt_lt (key iv pt : List Nat) (hpt : ∀ b ∈ pt, b < 256) :
    ∀ b ∈ cfbEncrypt key iv pt, b < 256 := by
  by_cases h : pt = []
  · simp [h, cfbEncrypt_nil]
  · rw [cfbEncrypt_cons key iv pt h]
    intro b hb
    rcases List.mem_append.mp hb with hb | hb
    · exact zipWith_xor_lt _ _ (fun a ha => hpt a (List.mem_of_mem_take ha))
        (aesEncryptBlock_lt key iv) b hb
    · exact cfbEncrypt_lt key _ (pt.drop 16)
        (fun a ha => hpt a (List.mem_of_mem_drop ha)) b hb
termination_by pt.length
decreasing_by
  simp only [List.length_drop]
  have := List.length_pos.mpr h
  omega

/-! ## Helper lemmas about the base64 codec -/

/-- Decoding a base64 digit produced by encoding recovers its value. -/
theorem b64Val_b64Char : ∀ v < 64, b64Val (b64Char v) = some v := by decide

/-- Base64 digits are never the padding character. -/
theorem b64Char_ne_pad : ∀ v < 64, b64Char v ≠ '=' := by decide

/-- The index of a character is below the list length. -/
theorem charIdx_lt (c : Char) : ∀ (l : List Char) (i : Nat),
    charIdx c l = some i → i < l.length := by
  intro l
  induction l with
  | nil => simp [charIdx]
  | cons a r ih =>
    intro i hi
    simp only [charIdx] at hi
    by_cases hac : a = c
    · simp only [hac, if_pos rfl] at hi
      cases hi
      simp
    · simp only [if_neg hac, Option.map_eq_some'] at hi
      obtain ⟨j, hj, rfl⟩ := hi
      have := ih j hj
      simp only [List.length_cons]
      omega

/-- A base64 digit value is below 64. -/
theorem b64Val_lt (c : Char) (i : Nat) (h : b64Val c = some i) : i < 64 :=
  charIdx_lt c b64Alphabet i h

/-- Base64 decoding inverts base64 encoding on byte strings. -/
theorem b64DecodeChunks_encode (l : List Nat) (h : ∀ b ∈ l, b < 256) :
    b64DecodeChunks (b64EncodeChunks l) = some l := by
  induction l using b64EncodeChunks.induct with
  | case1 => rfl
  | case2 a =>
    have ha : a < 256 := h a (by simp)
    have h1 : b64Val (b64Char (a / 4)) = some (a / 4) := b64Val_b64Char _ (by omega)
    have h2 : b64Val (b64Char (a % 4 * 16)) = some (a % 4 * 16) :=
      b64Val_b64Char _ (by omega)
    simp only [b64EncodeChunks, b64DecodeChunks, h1, h2, if_pos rfl, and_self,
      if_true, Option.some.injEq, List.cons.injEq, and_true]
    omega
  | case3 a b =>
    have ha : a < 256 := h a (by simp)
    have hb : b < 256 := h b (by simp)
    have h1 : b64Val (b64Char (a / 4)) = some (a / 4) := b64Val_b64Char _ (by omega)
    have h2 : b64Val (b64Char (a % 4 * 16 + b / 16)) = some (a % 4 * 16 + b / 16) :=
      b64Val_b64Char _ (by omega)
    have h3 : b64Val (b64Char (b % 16 * 4)) = some (b % 16 * 4) :=
      b64Val_b64Char _ (by omega)
    have hne : b64Char (b % 16 * 4) ≠ '=' := b64Char_ne_pad _ (by omega)
    simp only [b64EncodeChunks, b64DecodeChunks, h1, h2, h3, if_neg hne, if_pos rfl,
      if_true, Option.some.injEq, List.cons.injEq, and_true]
    omega
  | case4 a b c rest ih =>
    have ha : a < 256 := h a (by simp)
    have hb : b < 256 := h b (by simp)
    have hc : c < 256 := h c (by simp)
    have h1 : b64Val (b64Char (a / 4)) = some (a / 4) := b64Val_b64Char _ (by omega)
    have h2 : b64Val (b64Char (a % 4 * 16 + b / 16)) = some (a % 4 * 16 + b / 16) :=
      b64Val_b64Char _ (by omega)
    have h3 : b64Val (b64Char (b % 16 * 4 + c / 64)) = some (b % 16 * 4 + c / 64) :=
      b64Val_b64Char _ (by omega)
    have h4 : b64Val (b64Char (c % 64)) = some (c % 64) := b64Val_b64Char _ (by omega)
    have hne3 : b64Char (b % 16 * 4 + c / 64) ≠ '=' := b64Char_ne_pad _ (by omega)
    have hne4 : b64Char (c % 64) ≠ '=' := b64Char_ne_pad _ (by omega)
    have hrest := ih (fun x hx => h x (by simp [hx]))
    simp only [b64EncodeChunks, b64DecodeChunks, h1, h2, h3, h4, if_neg hne3,
      if_neg hne4, hrest, Option.map_some', Option.some.injEq, List.cons.injEq,
      and_true]
    omega

/-- Round trip of the transport encoding on byte strings. -/
theorem b64_roundtrip (l : List Nat) (h : ∀ b ∈ l, b < 256) :
    b64decode (b64encode l) = some l :=
  b64DecodeChunks_encode l h

/-- Base64 encoding of a nonempty byte string is a nonempty string. -/
theorem b64encode_ne_empty (l : List Nat) (h : l ≠ []) : b64encode l ≠ "" := by
  intro hcontra
  have hdata : b64EncodeChunks l = [] := by
    have := congrArg String.data hcontra
    simpa [b64encode] using this
  match l, h with
  | [a], _ => simp [b64EncodeChunks] at hdata
  | [a, b], _ => simp [b64EncodeChunks] at hdata
  | a :: b :: c :: rest, _ => simp [b64EncodeChunks] at hdata

/-! ## Helper lemmas about UTF-8 validity -/

/-- Every byte accepted by the UTF-8 scanner is below 256 (when the pending
continuation range is a byte range, as in every reachable state). -/
theorem utf8Scan_lt (l : List Nat) : ∀ need lo hi, hi ≤ 0xBF →
    utf8Scan need lo hi l = true → ∀ b ∈ l, b < 256 := by
  induction l with
  | nil => simp
  | cons a rest ih =>
    intro need lo hi hhi hv x hx
    simp only [utf8Scan] at hv
    by_cases hn : need = 0
    · rw [if_pos hn] at hv
      split_ifs at hv with h1 h2 h3 h4 h5 h6 h7 h8 h9
      · rcases List.mem_cons.mp hx with rfl | hx
        · omega
        · exact ih _ _ _ (by omega) hv x hx
      · simp only [Bool.and_eq_true, decide_eq_true_eq] at h2
        rcases List.mem_cons.mp hx with rfl | hx
        · omega
        · exact ih _ _ _ (by omega) hv x hx
      · rcases List.mem_cons.mp hx with rfl | hx
        · omega
        · exact ih _ _ _ (by omega) hv x hx
      · simp only [Bool.and_eq_true, decide_eq_true_eq] at h4
        rcases List.mem_cons.mp hx with rfl | hx
        · omega
        · exact ih _ _ _ (by omega) hv x hx
      · rcases List.mem_cons.mp hx with rfl | hx
        · omega
        · exact ih _ _ _ (by omega) hv x hx
      · simp only [Bool.and_eq_true, decide_eq_true_eq] at h6
        rcases List.mem_cons.mp hx with rfl | hx
        · omega
        · exact ih _ _ _ (by omega) hv x hx
      · rcases List.mem_cons.mp hx with rfl | hx
        · omega
        · exact ih _ _ _ (by omega) hv x hx
      · simp only [Bool.and_eq_true, decide_eq_true_eq] at h8
        rcases List.mem_cons.mp hx with rfl | hx
        · omega
        · exact ih _ _ _ (by omega) hv x hx
      · rcases List.mem_cons.mp hx with rfl | hx
        · omega
        · exact ih _ _ _ (by omega) hv x hx
    · rw [if_neg hn] at hv
      simp only [Bool.and_eq_true, decide_eq_true_eq] at hv
      rcases List.mem_cons.mp hx with rfl | hx
      · omega
      · exact ih _ _ _ (by omega) hv.2 x hx

/-- Valid UTF-8 byte strings consist of bytes. -/
theorem isValidUtf8_lt (l : List Nat) (hv : isValidUtf8 l = true) :
    ∀ b ∈ l, b < 256 :=
  utf8Scan_lt l 0 0 0 (by omega) hv


/-! ## Characterization of the encrypt and decrypt handlers -/

/-- A stored IV string that decodes to 16 bytes is nonempty. -/
theorem stored_iv_ne_empty {s : String} {fiv : List Nat}
    (hdec : b64decode s = some fiv) (hlen : fiv.length = 16) : s ≠ "" := by
  intro hcontra
  rw [hcontra] at hdec
  have hnil : b64decode "" = some [] := rfl
  rw [hnil, Option.some.injEq] at hdec
  rw [← hdec] at hlen
  simp at hlen

/-- What `encrypt` returns on a well-formed record: the base64 encoding of
the bare ciphertext under the `Fixed` policy, and of the fresh IV followed by
the ciphertext under the `Random` policy. -/
theorem encrypt_eq (st : Store) (name : String) (pt : List Nat) (kv : Option Nat)
    (freshIV : List Nat) (r : ServiceRecord) (key fiv : List Nat)
    (hr : lookupService st name (kv.getD 1) = some r)
    (hkey : b64decode r.aes_key = some key)
    (hklen : key.length = 32)
    (hpol : PolicyHyp r fiv)
    (hpt : pt ≠ [])
    (hivlen : freshIV.length = 16) :
    encrypt st name pt kv freshIV =
      if r.use_fixed_iv then .ok (b64encode (cfbEncrypt key fiv pt))
      else .ok (b64encode (freshIV ++ cfbEncrypt key freshIV pt)) := by
  rcases hpol with ⟨hfix, hnone⟩ | ⟨hfix, s, hs, hdec, hlen⟩
  · simp only [encrypt, hr, hkey, hpt, hfix, hnone, decodeFixedIV, cipherSizeCheck,
      hklen, hivlen, if_neg, ite_false, Bool.false_eq_true]
    simp [hklen, hivlen, Bind.bind, Except.bind, Pure.pure, Except.pure]
  · have hsne : s ≠ "" := stored_iv_ne_empty hdec hlen
    simp only [encrypt, hr, hkey, hpt, hfix, hs, decodeFixedIV, if_neg hsne, hdec,
      cipherSizeCheck, hklen, hlen]
    simp [hklen, hlen, Bind.bind, Except.bind, Pure.pure, Except.pure]

/-- What `decrypt` does on a well-formed record: it base64-decodes the wire
payload (failing like the code on malformed base64) and hands the decoded
bytes to the post-decoding steps `decryptDecoded`. -/
theorem decrypt_eq (st : Store) (name : String) (p : String) (kv : Option Nat)
    (r : ServiceRecord) (key fiv : List Nat)
    (hr : lookupService st name (kv.getD 1) = some r)
    (hkey : b64decode r.aes_key = some key)
    (hpol : PolicyHyp r fiv)
    (hp : p ≠ "") :
    decrypt st name p kv =
      match b64decode p with
      | none => .error .binasciiError
      | some d => decryptDecoded r.use_fixed_iv fiv key d := by
  rcases hpol with ⟨hfix, hnone⟩ | ⟨hfix, s, hs, hdec, hlen⟩
  · cases hpd : b64decode p with
    | none =>
      simp [decrypt, hr, hkey, hp, hfix, hnone, decodeFixedIV, hpd,
        Bind.bind, Except.bind, Pure.pure, Except.pure]
    | some d =>
      simp [decrypt, hr, hkey, hp, hfix, hnone, decodeFixedIV, hpd, decryptDecoded,
        Bind.bind, Except.bind, Pure.pure, Except.pure]
  · have hsne : s ≠ "" := stored_iv_ne_empty hdec hlen
    cases hpd : b64decode p with
    | none =>
      simp [decrypt, hr, hkey, hp, hfix, hs, hsne, hdec, decodeFixedIV, hpd,
        Bind.bind, Except.bind, Pure.pure, Except.pure]
    | some d =>
      simp [decrypt, hr, hkey, hp, hfix, hs, hsne, hdec, decodeFixedIV, hpd,
        decryptDecoded, Bind.bind, Except.bind, Pure.pure, Except.pure]



/-! ## Lemmas about the version store -/

/-- The maximum version is the fold of the version list. -/
theorem maxVersionOf_eq_foldl (st : Store) (name : String) :
    maxVersionOf st name = (versionsOf st name).foldl max 0 := rfl

/-- Appending one row appends its version when the row belongs to the
service. -/
theorem versionsOf_append (st : Store) (r : ServiceRecord) (name : String) :
    versionsOf (st ++ [r]) name =
      versionsOf st name ++
        if r.service_name == name then [r.key_version] else [] := by
  by_cases hb : (r.service_name == name) = true
  · simp [versionsOf, List.filter_append, List.filter_cons, hb]
  · simp [versionsOf, List.filter_append, List.filter_cons, hb]

/-- The existence check agrees with row membership. -/
theorem serviceExists_iff (st : Store) (name : String) :
    serviceExists st name = true ↔ ∃ r ∈ st, r.service_name = name := by
  simp [serviceExists, List.find?_isSome]

/-- A service with no rows has an empty version list. -/
theorem versionsOf_nil (st : Store) (name : String)
    (h : ∀ r ∈ st, r.service_name ≠ name) : versionsOf st name = [] := by
  simp only [versionsOf, List.map_eq_nil_iff]
  rw [List.filter_eq_nil_iff]
  intro r hr
  simp [h r hr]

/-- The existence check fails when the service has no rows. -/
theorem serviceExists_eq_false (st : Store) (name : String)
    (h : ∀ r ∈ st, r.service_name ≠ name) : serviceExists st name = false := by
  rw [← Bool.not_eq_true, serviceExists_iff]
  push_neg
  exact h

/-- A service with a nonempty version list passes the existence check. -/
theorem serviceExists_of_versions (st : Store) (name : String)
    (h : versionsOf st name ≠ []) : serviceExists st name = true := by
  rw [serviceExists_iff]
  by_contra hne
  push_neg at hne
  exact h (versionsOf_nil st name hne)

/-- The fold of `max` over `1, ..., n` is `n`. -/
theorem foldl_max_range (n : Nat) : (List.range' 1 n).foldl max 0 = n := by
  induction n with
  | zero => rfl
  | succ n ih =>
    rw [List.range'_concat, List.foldl_append, ih]
    simp only [List.foldl_cons, List.foldl_nil]
    omega



/-! ## Claim C4 -/

/-- C4: for every valid service name, creating the service assigns version 1,
and every subsequent rotation assigns exactly max(existing versions) + 1, so
a create followed by two rotations yields versions 1, 2, 3; the version
sequence `1, ..., n` grows to `1, ..., n + 1` on rotation, so it is strictly
increasing with no gaps and no reuse. -/
theorem C4_version_sequence (st : Store) (name : String)
    (b₁ b₂ b₃ : Bool) (fk₁ fk₂ fk₃ fiv₁ fiv₂ fiv₃ : List Nat)
    (hname : name ≠ "")
    (hfresh : ∀ r ∈ st, r.service_name ≠ name) :
    versionsOf (create_service st name b₁ fk₁ fiv₁).2 name = [1] ∧
    (∀ st' : Store, serviceExists st' name = true →
      versionsOf (update_key st' name b₂ fk₂ fiv₂).2 name =
        versionsOf st' name ++ [maxVersionOf st' name + 1]) ∧
    (∀ (st' : Store) (n : Nat), versionsOf st' name = List.range' 1 (n + 1) →
      versionsOf (update_key st' name b₂ fk₂ fiv₂).2 name =
        List.range' 1 (n + 2)) ∧
    versionsOf (update_key (update_key (create_service st name b₁ fk₁ fiv₁).2
        name b₂ fk₂ fiv₂).2 name b₃ fk₃ fiv₃).2 name = [1, 2, 3] := by
  have hnoex : serviceExists st name = false := serviceExists_eq_false st name hfresh
  have h1 : versionsOf (create_service st name b₁ fk₁ fiv₁).2 name = [1] := by
    simp only [create_service, if_neg hname, hnoex, Bool.false_eq_true, if_false,
      ite_false]
    rw [versionsOf_append, versionsOf_nil st name hfresh]
    simp
  have h2 : ∀ st' : Store, serviceExists st' name = true →
      versionsOf (update_key st' name b₂ fk₂ fiv₂).2 name =
        versionsOf st' name ++ [maxVersionOf st' name + 1] := by
    intro st' hex
    simp only [update_key, hex, if_true, ite_true]
    rw [versionsOf_append]
    simp
  have h2' : ∀ (b : Bool) (fk fiv : List Nat) (st' : Store),
      serviceExists st' name = true →
      versionsOf (update_key st' name b fk fiv).2 name =
        versionsOf st' name ++ [maxVersionOf st' name + 1] := by
    intro b fk fiv st' hex
    simp only [update_key, hex, if_true, ite_true]
    rw [versionsOf_append]
    simp
  have h3 : ∀ (st' : Store) (n : Nat), versionsOf st' name = List.range' 1 (n + 1) →
      versionsOf (update_key st' name b₂ fk₂ fiv₂).2 name =
        List.range' 1 (n + 2) := by
    intro st' n hv
    have hex : serviceExists st' name = true := by
      apply serviceExists_of_versions
      rw [hv]
      simp [List.range'_concat]
    rw [h2 st' hex, hv, maxVersionOf_eq_foldl, hv, foldl_max_range]
    have hsplit : n + 2 = (n + 1) + 1 := rfl
    have harith : 1 + 1 * (n + 1) = n + 1 + 1 := by omega
    conv_rhs => rw [hsplit, List.range'_concat]
    rw [harith]
  refine ⟨h1, h2, h3, ?_⟩
  have hex1 : serviceExists (create_service st name b₁ fk₁ fiv₁).2 name = true := by
    apply serviceExists_of_versions
    rw [h1]
    simp
  have hv2 := h2' b₂ fk₂ fiv₂ _ hex1
  rw [h1, maxVersionOf_eq_foldl, h1] at hv2
  have hex2 : serviceExists (update_key (create_service st name b₁ fk₁ fiv₁).2
      name b₂ fk₂ fiv₂).2 name = true := by
    apply serviceExists_of_versions
    rw [hv2]
    simp
  have hv3 := h2' b₃ fk₃ fiv₃ _ hex2
  rw [hv2, maxVersionOf_eq_foldl, hv2] at hv3
  rw [hv3]
  rfl

/-- C4 witness: instantiated at the empty store and service "billing". -/
theorem C4_version_sequence_witness :
    versionsOf (create_service [] "billing" false key1 iv0).2 "billing" = [1] ∧
    (∀ st' : Store, serviceExists st' "billing" = true →
      versionsOf (update_key st' "billing" true key2 iv0).2 "billing" =
        versionsOf st' "billing" ++ [maxVersionOf st' "billing" + 1]) ∧
    (∀ (st' : Store) (n : Nat),
      versionsOf st' "billing" = List.range' 1 (n + 1) →
      versionsOf (update_key st' "billing" true key2 iv0).2 "billing" =
        List.range' 1 (n + 2)) ∧
    versionsOf (update_key (update_key (create_service [] "billing" false key1
        iv0).2 "billing" true key2 iv0).2 "billing" false key1 iv0).2 "billing"
      = [1, 2, 3] :=
  C4_version_sequence [] "billing" false true false key1 key2 key1 iv0 iv0 iv0
    (by decide) (by simp)



/-! ## Small reduction lemmas for the Except monad -/

/-- Throwing is the error constructor. -/
theorem throw_eq {α : Type} (e : ApiError) :
    (throw e : Except ApiError α) = Except.error e := rfl

/-- Pure is the ok constructor. -/
theorem pure_eq {α : Type} (a : α) :
    (pure a : Except ApiError α) = Except.ok a := rfl

/-- Binding after ok applies the continuation. -/
theorem bind_ok {α β : Type} (a : α) (f : α → Except ApiError β) :
    (Except.ok a >>= f) = f a := rfl

/-- Binding after an error propagates the error. -/
theorem bind_error {α β : Type} (e : ApiError) (f : α → Except ApiError β) :
    (Except.error e >>= f) = Except.error e := rfl

/-- The fixed-IV column decoding step only ever fails with the base64 error. -/
theorem decodeFixedIV_error (o : Option String) (e : ApiError)
    (h : decodeFixedIV o = .error e) : e = .binasciiError := by
  cases o with
  | none => simp [decodeFixedIV] at h
  | some s =>
    by_cases hs : s = ""
    · simp [decodeFixedIV, hs] at h
    · cases hd : b64decode s with
      | none =>
        simp only [decodeFixedIV, if_neg hs, hd] at h
        exact (Except.error.inj h).symm
      | some b => simp [decodeFixedIV, hs, hd] at h

/-- The cipher construction checks only ever fail with the two size errors. -/
theorem cipherSizeCheck_error (key iv : List Nat) (e : ApiError)
    (h : cipherSizeCheck key iv = .error e) :
    e = .invalidKeySize ∨ e = .invalidIVSize := by
  unfold cipherSizeCheck at h
  split_ifs at h
  · exact Or.inr (Except.error.inj h).symm
  · exact Or.inl (Except.error.inj h).symm

/-! ## Claim C5 -/

/-- C5: for every Fixed-policy version, encryption is deterministic — the
result of `encrypt` does not depend on the fresh randomness argument at all,
because the stored IV is reused and the CFB transform is a pure function of
(key, IV, plaintext). Two calls with the same plaintext therefore produce
byte-identical wire payloads. -/
theorem C5_fixed_iv_deterministic (st : Store) (name : String) (pt : List Nat)
    (kv : Option Nat) (r : ServiceRecord)
    (hr : lookupService st name (kv.getD 1) = some r)
    (hfix : r.use_fixed_iv = true) (iv₁ iv₂ : List Nat) :
    encrypt st name pt kv iv₁ = encrypt st name pt kv iv₂ := by
  simp only [encrypt, hr, hfix, if_true, ite_true]

/-- C5 witness: two encrypt calls on the fixed-IV store with different
randomness arguments coincide. -/
theorem C5_fixed_iv_deterministic_witness :
    encrypt stF "svc" hello none iv0 =
      encrypt stF "svc" hello none (List.replicate 16 9) :=
  C5_fixed_iv_deterministic stF "svc" hello none
    ⟨"svc", b64encode key1, 1, true, some (b64encode iv0)⟩ (by decide) rfl iv0
    (List.replicate 16 9)

/-! ## Claim C2 (corrected) -/

/-- C2 (amended): when the caller omits the version argument, `encrypt` and
`decrypt` behave exactly as if version 1 had been requested — the code
defaults `key_version` to 1, not to the service's latest version. -/
theorem C2_default_version_is_one (st : Store) (name : String) (pt : List Nat)
    (freshIV : List Nat) (p : String) :
    encrypt st name pt none freshIV = encrypt st name pt (some 1) freshIV ∧
    decrypt st name p none = decrypt st name p (some 1) :=
  ⟨rfl, rfl⟩

/-- C2 counterexample: on a store whose latest version is 2, encrypting with
the version argument omitted agrees with version 1 and disagrees with the
latest version 2, refuting "defaults to the latest version". -/
theorem C2_counterexample :
    specLatestVersion st2 "svc" = 2 ∧
    encrypt st2 "svc" hello none iv0 = encrypt st2 "svc" hello (some 1) iv0 ∧
    encrypt st2 "svc" hello none iv0 ≠ encrypt st2 "svc" hello (some 2) iv0 :=
  ⟨by decide, rfl, by decide⟩



/-! ## Claim C3 (corrected) -/

/-- C3 (amended): for a Random-policy version, decrypting a wire payload
whose decoded byte length is below 16 does not return a plaintext, but the
failure is an uncaught `ValueError` from the cipher layer (the IV slice is
shorter than 16 bytes), not a typed `MalformedPayload` error — the handler
performs no length check of its own. -/
theorem C3_short_payload_exception (st : Store) (name : String)
    (kv : Option Nat) (r : ServiceRecord) (key : List Nat) (p : String)
    (d : List Nat)
    (hr : lookupService st name (kv.getD 1) = some r)
    (hkey : b64decode r.aes_key = some key) (hklen : key.length = 32)
    (hfix : r.use_fixed_iv = false) (hnone : r.fixed_iv = none)
    (hp : p ≠ "") (hpd : b64decode p = some d) (hdlen : d.length < 16) :
    decrypt st name p kv = .error .invalidIVSize := by
  rw [decrypt_eq st name p kv r key [] hr hkey (Or.inl ⟨hfix, hnone⟩) hp, hpd]
  have hminne : ¬ ((d.take 16).length = 16) := by
    rw [List.length_take]
    omega
  have hle : ¬ (16 ≤ d.length) := by omega
  simp [decryptDecoded, hfix, cipherSizeCheck, hklen, hminne, hle, bind_ok, bind_error,
    throw_eq, pure_eq, Bind.bind, Except.bind, Pure.pure, Except.pure]

/-- C3 witness: the one-byte payload "AA==" on the Random-policy store. -/
theorem C3_short_payload_exception_witness :
    decrypt st1 "svc" "AA==" none = .error .invalidIVSize :=
  C3_short_payload_exception st1 "svc" none
    ⟨"svc", b64encode key1, 1, false, none⟩ key1 "AA==" [0] (by decide)
    (by decide) (by decide) rfl rfl (by decide) (by decide) (by decide)

/-- C3 counterexample: on the concrete short payload the handler fails with
the untyped IV-size exception, not with the typed `MalformedPayload` error
the claim asserts. -/
theorem C3_counterexample :
    decrypt st1 "svc" "AA==" none = .error .invalidIVSize ∧
    decrypt st1 "svc" "AA==" none ≠ .error .malformedPayload := by
  constructor
  · decide
  · decide

/-! ## Claim C10 -/

/-- C10: for a Random-policy version, a wire payload whose decoded bytes are
exactly 16 bytes (an IV with empty ciphertext) is not rejected: decrypt
succeeds and returns the empty plaintext, so the under-16-byte failure
boundary is strict. -/
theorem C10_sixteen_byte_payload (st : Store) (name : String)
    (kv : Option Nat) (r : ServiceRecord) (key : List Nat) (p : String)
    (d : List Nat)
    (hr : lookupService st name (kv.getD 1) = some r)
    (hkey : b64decode r.aes_key = some key) (hklen : key.length = 32)
    (hfix : r.use_fixed_iv = false) (hnone : r.fixed_iv = none)
    (hpd : b64decode p = some d) (hdlen : d.length = 16) :
    decrypt st name p kv = .ok [] := by
  have hp : p ≠ "" := by
    intro hc
    rw [hc] at hpd
    have hnil : b64decode "" = some [] := rfl
    rw [hnil, Option.some.injEq] at hpd
    rw [← hpd] at hdlen
    simp at hdlen
  rw [decrypt_eq st name p kv r key [] hr hkey (Or.inl ⟨hfix, hnone⟩) hp, hpd]
  have htake : (d.take 16).length = 16 := by
    rw [List.length_take]
    omega
  have hdrop : d.drop 16 = [] := List.drop_eq_nil_of_le (by omega)
  simp [decryptDecoded, hfix, cipherSizeCheck, hklen, htake, hdrop, cfbDecrypt_nil,
    isValidUtf8, utf8Scan, bind_ok, bind_error, throw_eq, pure_eq, Bind.bind,
    Except.bind, Pure.pure, Except.pure]

/-- C10 witness: a bare 16-byte IV payload decrypts to the empty string. -/
theorem C10_sixteen_byte_payload_witness :
    decrypt st1 "svc" (b64encode iv0) none = .ok [] :=
  C10_sixteen_byte_payload st1 "svc" none
    ⟨"svc", b64encode key1, 1, false, none⟩ key1 (b64encode iv0) iv0
    (by decide) (by decide) (by decide) rfl rfl (by decide) (by decide)



/-! ## Claim C8 -/

/-- Once the record lookup succeeds, `encrypt` can no longer fail with the
not-found error. -/
theorem encrypt_ne_notFound (st : Store) (name : String) (pt : List Nat)
    (kv : Option Nat) (freshIV : List Nat) (r : ServiceRecord) (v : Nat)
    (hr : lookupService st name (kv.getD 1) = some r) :
    encrypt st name pt kv freshIV ≠ .error (.notFoundVersion v) := by
  intro hcontra
  simp only [encrypt, hr] at hcontra
  by_cases hpt : pt = []
  · simp only [hpt, if_pos rfl, throw_eq, bind_error, ite_true, if_true] at hcontra
    simp at hcontra
  · simp only [hpt, if_neg, ite_false] at hcontra
    cases hbk : b64decode r.aes_key with
    | none =>
      simp only [hbk, throw_eq, bind_error] at hcontra
      simp at hcontra
    | some key =>
      simp only [hbk, bind_ok] at hcontra
      cases hdf : decodeFixedIV r.fixed_iv with
      | error e =>
        simp only [hdf, bind_error] at hcontra
        have := decodeFixedIV_error _ _ hdf
        subst this
        simp at hcontra
      | ok fo =>
        simp only [hdf, bind_ok] at hcontra
        cases hub : r.use_fixed_iv with
        | false =>
          simp only [hub, Bool.false_eq_true, if_false, ite_false, pure_eq,
            bind_ok] at hcontra
          cases hcs : cipherSizeCheck key freshIV with
          | error e =>
            simp only [hcs, bind_error] at hcontra
            rcases cipherSizeCheck_error _ _ _ hcs with rfl | rfl <;> simp at hcontra
          | ok u =>
            simp only [hcs, bind_ok, pure_eq] at hcontra
            simp at hcontra
        | true =>
          simp only [hub, if_true, ite_true] at hcontra
          cases fo with
          | none =>
            simp only [throw_eq, bind_error] at hcontra
            simp at hcontra
          | some fiv =>
            simp only [pure_eq, bind_ok] at hcontra
            cases hcs : cipherSizeCheck key fiv with
            | error e =>
              simp only [hcs, bind_error] at hcontra
              rcases cipherSizeCheck_error _ _ _ hcs with rfl | rfl <;>
                simp at hcontra
            | ok u =>
              simp only [hcs, bind_ok, pure_eq] at hcontra
              simp at hcontra

/-- Once the record lookup succeeds, `decrypt` can no longer fail with the
not-found error. -/
theorem decrypt_ne_notFound (st : Store) (name : String) (p : String)
    (kv : Option Nat) (r : ServiceRecord) (v : Nat)
    (hr : lookupService st name (kv.getD 1) = some r) :
    decrypt st name p kv ≠ .error (.notFoundVersion v) := by
  intro hcontra
  simp only [decrypt, hr] at hcontra
  by_cases hp : p = ""
  · simp only [hp, if_pos rfl, throw_eq, bind_error, ite_true, if_true] at hcontra
    simp at hcontra
  · simp only [hp, if_neg, ite_false] at hcontra
    cases hbk : b64decode r.aes_key with
    | none =>
      simp only [hbk, throw_eq, bind_error] at hcontra
      simp at hcontra
    | some key =>
      simp only [hbk, bind_ok] at hcontra
      cases hdf : decodeFixedIV r.fixed_iv with
      | error e =>
        simp only [hdf, bind_error] at hcontra
        have := decodeFixedIV_error _ _ hdf
        subst this
        simp at hcontra
      | ok fo =>
        simp only [hdf, bind_ok] at hcontra
        cases hub : r.use_fixed_iv with
        | false =>
          simp only [hub, Bool.false_eq_true, if_false, ite_false] at hcontra
          cases hbp : b64decode p with
          | none =>
            simp only [hbp, throw_eq, bind_error] at hcontra
            simp at hcontra
          | some combined =>
            simp only [hbp, pure_eq, bind_ok] at hcontra
            cases hcs : cipherSizeCheck key (combined.take 16) with
            | error e =>
              simp only [hcs, bind_error] at hcontra
              rcases cipherSizeCheck_error _ _ _ hcs with rfl | rfl <;>
                simp at hcontra
            | ok u =>
              simp only [hcs, bind_ok, pure_eq] at hcontra
              by_cases huv : isValidUtf8 (cfbDecrypt key (combined.take 16)
                  (combined.drop 16)) = true
              · simp only [huv, if_pos rfl, pure_eq, ite_true, if_true] at hcontra
                simp at hcontra
              · simp only [huv, if_neg, throw_eq, ite_false] at hcontra
                simp at hcontra
        | true =>
          simp only [hub, if_true, ite_true] at hcontra
          cases fo with
          | none =>
            simp only [throw_eq, bind_error] at hcontra
            simp at hcontra
          | some fiv =>
            cases hbp : b64decode p with
            | none =>
              simp only [hbp, throw_eq, bind_error] at hcontra
              simp at hcontra
            | some ct =>
              simp only [hbp, pure_eq, bind_ok] at hcontra
              cases hcs : cipherSizeCheck key fiv with
              | error e =>
                simp only [hcs, bind_error] at hcontra
                rcases cipherSizeCheck_error _ _ _ hcs with rfl | rfl <;>
                  simp at hcontra
              | ok u =>
                simp only [hcs, bind_ok, pure_eq] at hcontra
                by_cases huv : isValidUtf8 (cfbDecrypt key fiv ct) = true
                · simp only [huv, if_pos rfl, pure_eq, ite_true, if_true] at hcontra
                  simp at hcontra
                · simp only [huv, if_neg, throw_eq, ite_false] at hcontra
                  simp at hcontra

/-- C8: `create_service` fails with AlreadyExists exactly when a version
already exists for the name (leaving the store unchanged), and `encrypt` and
`decrypt` fail with NotFound exactly when no record matches the requested
(service_name, version) pair. -/
theorem C8_error_conditions (st : Store) (name : String) (b : Bool)
    (freshKey freshIV : List Nat) (pt : List Nat) (p : String) (kv : Option Nat)
    (hname : name ≠ "") (hpt : pt ≠ []) (hp : p ≠ "") :
    ((create_service st name b freshKey freshIV).1 = .error .alreadyExists ↔
      ∃ r ∈ st, r.service_name = name) ∧
    ((create_service st name b freshKey freshIV).1 = .error .alreadyExists →
      (create_service st name b freshKey freshIV).2 = st) ∧
    (encrypt st name pt kv freshIV = .error (.notFoundVersion (kv.getD 1)) ↔
      lookupService st name (kv.getD 1) = none) ∧
    (decrypt st name p kv = .error (.notFoundVersion (kv.getD 1)) ↔
      lookupService st name (kv.getD 1) = none) := by
  refine ⟨?_, ?_, ?_, ?_⟩
  · rw [← serviceExists_iff]
    by_cases hex : serviceExists st name = true
    · simp [create_service, hname, hex]
    · rw [Bool.not_eq_true] at hex
      simp [create_service, hname, hex]
  · by_cases hex : serviceExists st name = true
    · simp [create_service, hname, hex]
    · rw [Bool.not_eq_true] at hex
      simp [create_service, hname, hex]
  · cases hlk : lookupService st name (kv.getD 1) with
    | none => simp [encrypt, hlk, hpt, throw_eq, bind_error]
    | some r =>
      constructor
      · intro h
        exact absurd h (encrypt_ne_notFound st name pt kv freshIV r _ hlk)
      · intro h
        cases h
  · cases hlk : lookupService st name (kv.getD 1) with
    | none => simp [decrypt, hlk, hp, throw_eq, bind_error]
    | some r =>
      constructor
      · intro h
        exact absurd h (decrypt_ne_notFound st name p kv r _ hlk)
      · intro h
        cases h

/-- C8 witness: instantiated on the one-service store. -/
theorem C8_error_conditions_witness :
    ((create_service st1 "svc" false key2 iv0).1 = .error .alreadyExists ↔
      ∃ r ∈ st1, r.service_name = "svc") ∧
    ((create_service st1 "svc" false key2 iv0).1 = .error .alreadyExists →
      (create_service st1 "svc" false key2 iv0).2 = st1) ∧
    (encrypt st1 "svc" hello (some 9) iv0 =
        .error (.notFoundVersion ((some 9).getD 1)) ↔
      lookupService st1 "svc" ((some 9).getD 1) = none) ∧
    (decrypt st1 "svc" "AA==" (some 9) =
        .error (.notFoundVersion ((some 9).getD 1)) ↔
      lookupService st1 "svc" ((some 9).getD 1) = none) :=
  C8_error_conditions st1 "svc" false key2 iv0 hello "AA==" (some 9)
    (by decide) (by decide) (by decide)



/-! ## Claim C9 -/

/-- C9: every create and rotate operation preserves the invariant that a
record stores a (16-byte, base64-encoded) fixed IV exactly when its fixed-IV
flag is set: a Fixed record always carries such an IV and a Random record
never stores one. -/
theorem C9_iv_policy_invariant (st : Store) (name : String) (b : Bool)
    (freshKey freshIV : List Nat)
    (hivlen : freshIV.length = 16) (hivb : ∀ x ∈ freshIV, x < 256)
    (hinv : ∀ r ∈ st, IVInvariant r) :
    (∀ r ∈ (create_service st name b freshKey freshIV).2, IVInvariant r) ∧
    (∀ r ∈ (update_key st name b freshKey freshIV).2, IVInvariant r) := by
  have hnewInv : ∀ (nm ak : String) (v : Nat),
      IVInvariant ⟨nm, ak, v, b,
        if b then some (b64encode freshIV) else none⟩ := by
    intro nm ak v
    cases b with
    | false =>
      exact ⟨fun h => (Bool.false_ne_true h).elim, fun _ => rfl⟩
    | true =>
      refine ⟨fun _ => ⟨b64encode freshIV, freshIV, rfl,
        b64_roundtrip freshIV hivb, hivlen⟩, fun h => ?_⟩
      exact (Bool.true_eq_false ▸ h).elim
  constructor
  · intro r hr
    by_cases hn : name = ""
    · simp only [create_service, if_pos hn] at hr
      exact hinv r hr
    · by_cases hex : serviceExists st name = true
      · simp only [create_service, if_neg hn, hex, ite_true, if_true] at hr
        exact hinv r hr
      · rw [Bool.not_eq_true] at hex
        simp only [create_service, if_neg hn, hex, Bool.false_eq_true, if_false,
          ite_false] at hr
        rcases List.mem_append.mp hr with h | h
        · exact hinv r h
        · have heq := List.mem_singleton.mp h
          subst heq
          exact hnewInv name (b64encode freshKey) 1
  · intro r hr
    by_cases hex : serviceExists st name = true
    · simp only [update_key, hex, ite_true, if_true] at hr
      rcases List.mem_append.mp hr with h | h
      · exact hinv r h
      · have heq := List.mem_singleton.mp h
        subst heq
        exact hnewInv name (b64encode freshKey) (maxVersionOf st name + 1)
    · rw [Bool.not_eq_true] at hex
      simp only [update_key, hex, Bool.false_eq_true, if_false, ite_false] at hr
      exact hinv r hr

/-- C9 witness: creating and then rotating on the empty store preserves the
invariant. -/
theorem C9_iv_policy_invariant_witness :
    (∀ r ∈ (create_service [] "svc" true key1 iv0).2, IVInvariant r) ∧
    (∀ r ∈ (update_key [] "svc" true key1 iv0).2, IVInvariant r) :=
  C9_iv_policy_invariant [] "svc" true key1 iv0 (by decide) (by decide)
    (by simp)



/-! ## Claim C6 -/

/-- C6: the wire payload is exactly what the policy dictates — under the
Random policy the encoded bytes are the 16-byte fresh IV followed by the
ciphertext, under the Fixed policy the ciphertext alone — and `decrypt`
applies the same base64 transport decoding to the payload before acting on
the decoded bytes. -/
theorem C6_wire_format (st : Store) (name : String) (pt : List Nat)
    (kv : Option Nat) (freshIV : List Nat) (p : String) (r : ServiceRecord)
    (key fiv : List Nat)
    (hr : lookupService st name (kv.getD 1) = some r)
    (hkey : b64decode r.aes_key = some key) (hklen : key.length = 32)
    (hpol : PolicyHyp r fiv) (hpt : pt ≠ []) (hivlen : freshIV.length = 16)
    (hp : p ≠ "") :
    (r.use_fixed_iv = false →
      encrypt st name pt kv freshIV =
        .ok (b64encode (freshIV ++ cfbEncrypt key freshIV pt))) ∧
    (r.use_fixed_iv = true →
      encrypt st name pt kv freshIV = .ok (b64encode (cfbEncrypt key fiv pt))) ∧
    (decrypt st name p kv =
      match b64decode p with
      | none => .error .binasciiError
      | some d => decryptDecoded r.use_fixed_iv fiv key d) := by
  refine ⟨?_, ?_, decrypt_eq st name p kv r key fiv hr hkey hpol hp⟩
  · intro hfix
    rw [encrypt_eq st name pt kv freshIV r key fiv hr hkey hklen hpol hpt hivlen,
      hfix]
    simp
  · intro hfix
    rw [encrypt_eq st name pt kv freshIV r key fiv hr hkey hklen hpol hpt hivlen,
      hfix]
    simp

/-- C6 witness: instantiated on the Random-policy store. -/
theorem C6_wire_format_witness :
    ((⟨"svc", b64encode key1, 1, false, none⟩ : ServiceRecord).use_fixed_iv
        = false →
      encrypt st1 "svc" hello none iv0 =
        .ok (b64encode (iv0 ++ cfbEncrypt key1 iv0 hello))) ∧
    ((⟨"svc", b64encode key1, 1, false, none⟩ : ServiceRecord).use_fixed_iv
        = true →
      encrypt st1 "svc" hello none iv0 =
        .ok (b64encode (cfbEncrypt key1 [] hello))) ∧
    (decrypt st1 "svc" "AA==" none =
      match b64decode "AA==" with
      | none => .error .binasciiError
      | some d => decryptDecoded
          (⟨"svc", b64encode key1, 1, false, none⟩ : ServiceRecord).use_fixed_iv
          [] key1 d) :=
  C6_wire_format st1 "svc" hello none iv0 "AA=="
    ⟨"svc", b64encode key1, 1, false, none⟩ key1 [] (by decide) (by decide)
    (by decide) (Or.inl ⟨rfl, rfl⟩) (by decide) (by decide) (by decide)

/-! ## Claim C7 (corrected) -/

/-- C7 (amended): for any well-formed wire payload and any stored key — in
particular a key other than the one the payload was encrypted under — the
CFB transform always completes and no integrity check exists: the handler
returns the transformed (garbage) bytes when they happen to decode as UTF-8
text, and otherwise fails at the text-decoding step (an uncaught
`UnicodeDecodeError`), never with an integrity error. -/
theorem C7_no_integrity_check (st : Store) (name : String) (kv : Option Nat)
    (r : ServiceRecord) (key fiv d : List Nat)
    (hr : lookupService st name (kv.getD 1) = some r)
    (hkey : b64decode r.aes_key = some key) (hklen : key.length = 32)
    (hpol : PolicyHyp r fiv)
    (hd : d ≠ []) (hdb : ∀ x ∈ d, x < 256)
    (hdlen : r.use_fixed_iv = false → 16 ≤ d.length) :
    decrypt st name (b64encode d) kv =
      if isValidUtf8 (cfbDecrypt key
          (if r.use_fixed_iv then fiv else d.take 16)
          (if r.use_fixed_iv then d else d.drop 16)) = true then
        .ok (cfbDecrypt key (if r.use_fixed_iv then fiv else d.take 16)
          (if r.use_fixed_iv then d else d.drop 16))
      else .error .unicodeDecodeError := by
  have hp : b64encode d ≠ "" := b64encode_ne_empty d hd
  rw [decrypt_eq st name (b64encode d) kv r key fiv hr hkey hpol hp,
    b64_roundtrip d hdb]
  rcases hpol with ⟨hfix, -⟩ | ⟨hfix, s, -, -, hlen⟩
  · have h16 : 16 ≤ d.length := hdlen hfix
    have htake : (d.take 16).length = 16 := by
      rw [List.length_take]
      omega
    simp only [decryptDecoded, hfix, Bool.false_eq_true, if_false, ite_false,
      cipherSizeCheck, hklen, htake]
    simp [bind_ok, bind_error, throw_eq, pure_eq, Bind.bind, Except.bind,
      Pure.pure, Except.pure]
  · simp only [decryptDecoded, hfix, if_true, ite_true, cipherSizeCheck, hklen,
      hlen]
    simp [bind_ok, bind_error, throw_eq, pure_eq, Bind.bind, Except.bind,
      Pure.pure, Except.pure]

/-- C7 witness: instantiated with version 2's record of the two-version
store and a 21-byte decoded payload. -/
theorem C7_no_integrity_check_witness :
    decrypt st2 "svc" (b64encode (iv0 ++ hello)) (some 2) =
      if isValidUtf8 (cfbDecrypt key2
          (if (⟨"svc", b64encode key2, 2, false, none⟩ :
              ServiceRecord).use_fixed_iv then [] else (iv0 ++ hello).take 16)
          (if (⟨"svc", b64encode key2, 2, false, none⟩ :
              ServiceRecord).use_fixed_iv then iv0 ++ hello
           else (iv0 ++ hello).drop 16)) = true then
        .ok (cfbDecrypt key2
          (if (⟨"svc", b64encode key2, 2, false, none⟩ :
              ServiceRecord).use_fixed_iv then [] else (iv0 ++ hello).take 16)
          (if (⟨"svc", b64encode key2, 2, false, none⟩ :
              ServiceRecord).use_fixed_iv then iv0 ++ hello
           else (iv0 ++ hello).drop 16))
      else .error .unicodeDecodeError :=
  C7_no_integrity_check st2 "svc" (some 2)
    ⟨"svc", b64encode key2, 2, false, none⟩ key2 [] (iv0 ++ hello) (by decide)
    (by decide) (by decide) (Or.inl ⟨rfl, rfl⟩) (by decide) (by decide)
    (by decide)

/-- C7 counterexample: a payload encrypted under version 1, decrypted under
version 2's key, makes the handler raise the text-decoding exception instead
of returning garbage plaintext, refuting "returns garbage rather than
raising". -/
theorem C7_counterexample :
    (encrypt st2 "svc" hello (some 1) iv0).map
        (fun p => decrypt st2 "svc" p (some 2)) =
      .ok (.error .unicodeDecodeError) := by
  decide



/-! ## Claim C1 -/

/-- C1: for every stored (service_name, key_version) record — under either
IV policy — and every nonempty plaintext that is valid UTF-8 text,
decrypting the wire payload produced by encrypting it under the same service
and version returns the original plaintext. -/
theorem C1_encrypt_decrypt_roundtrip (st : Store) (name : String)
    (kv : Option Nat) (r : ServiceRecord) (key fiv pt freshIV : List Nat)
    (hr : lookupService st name (kv.getD 1) = some r)
    (hkey : b64decode r.aes_key = some key) (hklen : key.length = 32)
    (hpol : PolicyHyp r fiv)
    (hpt : pt ≠ []) (hutf : isValidUtf8 pt = true)
    (hivlen : freshIV.length = 16) (hivb : ∀ x ∈ freshIV, x < 256) :
    ∃ payload, encrypt st name pt kv freshIV = .ok payload ∧
      decrypt st name payload kv = .ok pt := by
  have hptb : ∀ x ∈ pt, x < 256 := isValidUtf8_lt pt hutf
  have hptpos : 0 < pt.length := List.length_pos.mpr hpt
  rcases hpol with ⟨hfix, hnone⟩ | ⟨hfix, s, hs, hdec, hlen⟩
  · refine ⟨b64encode (freshIV ++ cfbEncrypt key freshIV pt), ?_, ?_⟩
    · rw [encrypt_eq st name pt kv freshIV r key fiv hr hkey hklen
        (Or.inl ⟨hfix, hnone⟩) hpt hivlen, hfix]
      simp
    · have hdb : ∀ x ∈ freshIV ++ cfbEncrypt key freshIV pt, x < 256 := by
        intro x hx
        rcases List.mem_append.mp hx with h | h
        · exact hivb x h
        · exact cfbEncrypt_lt key freshIV pt hptb x h
      have hdne : freshIV ++ cfbEncrypt key freshIV pt ≠ [] := by
        intro hc
        have hlc := congrArg List.length hc
        simp only [List.length_append, cfbEncrypt_length, List.length_nil] at hlc
        omega
      rw [decrypt_eq st name _ kv r key [] hr hkey (Or.inl ⟨hfix, hnone⟩)
        (b64encode_ne_empty _ hdne), b64_roundtrip _ hdb]
      have htake : (freshIV ++ cfbEncrypt key freshIV pt).take 16 = freshIV :=
        List.take_left' hivlen
      have hdrop : (freshIV ++ cfbEncrypt key freshIV pt).drop 16 =
          cfbEncrypt key freshIV pt := List.drop_left' hivlen
      simp [decryptDecoded, hfix, htake, hdrop, cipherSizeCheck, hklen, hivlen,
        cfb_roundtrip, hutf, bind_ok, bind_error, throw_eq, pure_eq, Bind.bind,
        Except.bind, Pure.pure, Except.pure]
  · refine ⟨b64encode (cfbEncrypt key fiv pt), ?_, ?_⟩
    · rw [encrypt_eq st name pt kv freshIV r key fiv hr hkey hklen
        (Or.inr ⟨hfix, s, hs, hdec, hlen⟩) hpt hivlen, hfix]
      simp
    · have hdb : ∀ x ∈ cfbEncrypt key fiv pt, x < 256 :=
        cfbEncrypt_lt key fiv pt hptb
      have hdne : cfbEncrypt key fiv pt ≠ [] := by
        intro hc
        have hlc := congrArg List.length hc
        rw [cfbEncrypt_length] at hlc
        simp only [List.length_nil] at hlc
        omega
      rw [decrypt_eq st name _ kv r key fiv hr hkey
        (Or.inr ⟨hfix, s, hs, hdec, hlen⟩) (b64encode_ne_empty _ hdne),
        b64_roundtrip _ hdb]
      simp [decryptDecoded, hfix, cipherSizeCheck, hklen, hlen, cfb_roundtrip,
        hutf, bind_ok, bind_error, throw_eq, pure_eq, Bind.bind, Except.bind,
        Pure.pure, Except.pure]

/-- C1 witness: the Random-policy store round-trips the plaintext "hello". -/
theorem C1_encrypt_decrypt_roundtrip_witness :
    ∃ payload, encrypt st1 "svc" hello none iv0 = .ok payload ∧
      decrypt st1 "svc" payload none = .ok hello :=
  C1_encrypt_decrypt_roundtrip st1 "svc" none
    ⟨"svc", b64encode key1, 1, false, none⟩ key1 [] hello iv0 (by decide)
    (by decide) (by decide) (Or.inl ⟨rfl, rfl⟩) (by decide) (by decide)
    (by decide) (by decide)


end EaaS
